import Mathlib

/-!
Verification of the knowledge-base scaffolder scripts
(`scripts/study_agent.py`, `scripts/knowledge.py`, `scripts/build_index.py`).

The Python code is shallowly embedded:
* strings are `List Char` (`Line`) or Lean `String`s,
* a journal document is its list of lines (no line contains a newline),
* the filesystem is an explicit `FS` state (directory set + file map),
* `subprocess.run(..., check=True)` is `Except CalledProcessError`.

Regex semantics are translated at the line level; ASCII semantics are used
for `\s`, `\d`, `[a-z0-9]`, `str.lower` (the keywords and formats in the
scripts are all ASCII).
-/

namespace Journey

/-- A line of text: a list of characters, containing no newline. -/
abbrev Line := List Char

/-- ASCII whitespace, as matched by Python `\s` and stripped by `str.strip()`:
space, tab, newline, carriage return, vertical tab, form feed. -/
def isSpace (c : Char) : Bool :=
  c.toNat = 32 || (9 ≤ c.toNat && c.toNat ≤ 13)

/-- ASCII digit, as matched by `\d` on ASCII text. -/
def isDigit (c : Char) : Bool :=
  48 ≤ c.toNat && c.toNat ≤ 57

/-- A character of the class `[a-z0-9]` from `knowledge.py`'s `slug`. -/
def isLowerAlnum (c : Char) : Bool :=
  (97 ≤ c.toNat && c.toNat ≤ 122) || (48 ≤ c.toNat && c.toNat ≤ 57)

/-- The hyphen character test. -/
def isDash (c : Char) : Bool :=
  decide (c = '-')

/-- `str.lower()` on ASCII text: lower-case every character. -/
def lower (l : Line) : Line :=
  l.map Char.toLower

/-- Drop a trailing run of characters satisfying `p` (the right half of
Python's `str.strip`). -/
def dropTrailing (p : Char → Bool) : Line → Line
  | [] => []
  | c :: t =>
    match dropTrailing p t with
    | [] => if p c then [] else [c]
    | r => c :: r

/-- Python `str.strip(chars)`: drop leading and trailing runs satisfying `p`. -/
def stripBoth (p : Char → Bool) (l : Line) : Line :=
  dropTrailing p (l.dropWhile p)

/-! ## Journal parser (`study_agent.py`, lines 7-43)

`DATE_H = r"^##\s*(\d{4}-\d{2}-\d{2})\s*$"` and
`BLOCK = r"(?:(?!^##\s*\d{4}-\d{2}-\d{2}\s*$).)*"`.

`sec_re = DATE_H + "\n" + (BLOCK)` with `MULTILINE | DOTALL`: each date
heading line starts a match whose captured body runs up to (not including)
the next date heading line or the end of the document, so `finditer`
yields one `(date, body)` pair per heading line.  `parse_list` compiles
`"^" + heading + ":\s*\n" + (BLOCK)` with `IGNORECASE | MULTILINE` but
NOT `DOTALL`, so there `.` stops at a newline: the capture is exactly the
first non-blank line after the heading line (the `\s*\n` swallows blank
lines), and the bullet `findall` runs over that single line. -/

/-- Does a line match `^##\s*(\d{4}-\d{2}-\d{2})\s*$`?  Returns the captured
ten-character date. -/
def isDatePat (l : Line) : Bool :=
  match l with
  | [a, b, c, d, e, f, g, h, i, j] =>
    isDigit a && isDigit b && isDigit c && isDigit d && decide (e = '-') &&
    isDigit f && isDigit g && decide (h = '-') && isDigit i && isDigit j
  | _ => false

/-- The date captured by `DATE_H` from a heading line, if the line is a date
heading: `##`, optional whitespace, `YYYY-MM-DD`, optional trailing
whitespace. -/
def dateOfHeading (l : Line) : Option Line :=
  match l with
  | '#' :: '#' :: rest =>
    let rest2 := rest.dropWhile isSpace
    let d := rest2.take 10
    if isDatePat d && (rest2.drop 10).all isSpace then some d else none
  | _ => none

/-- Collect lines up to (not including) the next date heading, returning the
body and the remaining lines (which start with the next heading, if any).
This is the extent of the `BLOCK` capture of `sec_re` (`DOTALL` is on
there, so `.` crosses newlines but the lookahead stops it at a heading). -/
def takeBody : List Line → List Line × List Line
  | [] => ([], [])
  | l :: ls =>
    match dateOfHeading l with
    | some _ => ([], l :: ls)
    | none =>
      let p := takeBody ls
      (l :: p.1, p.2)

/-- All matches of `sec_re.finditer`: one `(date, body)` pair per date
heading line, the body extending to the next heading or end of input. -/
def sections : List Line → List (Line × List Line)
  | [] => []
  | l :: ls =>
    match dateOfHeading l with
    | some d => (d, (takeBody ls).1) :: sections ls
    | none => sections ls

/-- The `for m in sec_re.finditer(...)` loop of `parse_yearly_journal`:
take the body of the first section whose date equals the target, else
none. -/
def findSection : List (Line × List Line) → Line → Option (List Line)
  | [], _ => none
  | s :: rest, target => if s.1 = target then some s.2 else findSection rest target

/-- Case-insensitive prefix removal (the effect of `re.IGNORECASE` on the
literal heading text). -/
def dropPrefixCI : Line → Line → Option Line
  | [], l => some l
  | _ :: _, [] => none
  | p :: ps, c :: cs =>
    if Char.toLower c = Char.toLower p then dropPrefixCI ps cs else none

/-- Does a line match `^{heading}:\s*$` case-insensitively (the heading text,
a colon, then only whitespace)?  In `parse_list`'s pattern
`^{heading}:\s*\n` this is the condition on the heading line itself. -/
def headerLineIs (hd : Line) (l : Line) : Bool :=
  match dropPrefixCI (hd ++ [':']) l with
  | some rest => rest.all isSpace
  | none => false

/-- A line consisting only of whitespace (swallowed by the greedy `\s*`
before the final `\n` of `parse_list`'s pattern). -/
def isBlank (l : Line) : Bool :=
  l.all isSpace

/-- The bullets `re.findall(r"^\s*-\s*(.+?)\s*$", ...)` extracts from a single
line, post-processed by `[b.strip() for b in bullets if b.strip()]`:
optional leading whitespace, a hyphen, then the rest trimmed; empty
content yields nothing. -/
def bulletOfLine (l : Line) : List Line :=
  match l.dropWhile isSpace with
  | '-' :: rest =>
    let c := stripBoth isSpace rest
    if c = [] then [] else [c]
  | _ => []

/-- `parse_list(heading)` from `study_agent.py` lines 33-39, embedded over the
body lines of the matched section: find the first line matching
`^{heading}:\s*` (that line is followed by a newline whenever any line
follows it), skip blank lines, and scan the single captured line for a
bullet (`BLOCK` is compiled without `DOTALL` there, so the capture cannot
cross a newline; the leading negative lookahead empties the capture if
that line is a date heading). -/
def parse_list (heading : Line) : List Line → List Line
  | [] => []
  | l :: ls =>
    if headerLineIs heading l then
      match (ls.dropWhile isBlank).head? with
      | none => []
      | some cap => if (dateOfHeading cap).isSome then [] else bulletOfLine cap
    else parse_list heading ls

/-- The result of `parse_yearly_journal`. -/
structure ParseResult where
  date : Line
  topics : List Line
  notes : List Line
deriving DecidableEq, Repr

/-- `parse_yearly_journal` from `study_agent.py` lines 10-43, over the lines
of the document and an explicit target date (a falsy — empty — section
body is treated as no section, per `if not section:`). -/
def parse_yearly_journal (doc : List Line) (target : Line) : ParseResult :=
  match findSection (sections doc) target with
  | none => ⟨target, [], []⟩
  | some body =>
    if body = [] then ⟨target, [], []⟩
    else ⟨target, parse_list ("Topics".toList) body, parse_list ("Notes".toList) body⟩

/-! ## Topic router (`study_agent.py`, lines 51-67) -/

/-- Is `needle` a prefix of the second list (character equality)? -/
def isPrefixOfL : Line → Line → Bool
  | [], _ => true
  | _ :: _, [] => false
  | a :: ps, b :: ls => decide (a = b) && isPrefixOfL ps ls

/-- Python's `needle in hay` substring containment. -/
def isSub (needle : Line) : Line → Bool
  | [] => isPrefixOfL needle []
  | b :: t => isPrefixOfL needle (b :: t) || isSub needle t

/-- `any(k in t for k in ks)`. -/
def anyKw (ks : List Line) (t : Line) : Bool :=
  ks.any (fun k => isSub k t)

def kw1 : List Line :=
  ["react".toList, "ag grid".toList, "frontend".toList, "tsx".toList, "typescript".toList]

def kw2 : List Line :=
  ["git".toList, "docker".toList, "kubernetes".toList, "ci/cd".toList, "ci-cd".toList,
   "shell".toList, "zsh".toList, "brew".toList, "homebrew".toList]

def kw3 : List Line :=
  ["java".toList, "spring".toList]

def kw4 : List Line :=
  ["django".toList, "python".toList]

def kw5 : List Line :=
  ["langchain".toList, "agent".toList, "crewai".toList]

def kw6 : List Line :=
  ["rag".toList, "prompt".toList, "fine-tuning".toList, "evals".toList,
   "transformer".toList, "embedding".toList]

def kw7 : List Line :=
  ["sklearn".toList, "regression".toList, "clustering".toList, "pytorch".toList,
   "tensorflow".toList]

/-- `route` from `study_agent.py` lines 51-67: ordered, case-insensitive
keyword-group matching, first group wins, with a fixed fallback. -/
def route (topic : Line) : String × String × String :=
  if anyKw kw1 (lower topic) then ("swe", "frontend", "typescript")
  else if anyKw kw2 (lower topic) then ("swe", "devops", "bash")
  else if anyKw kw3 (lower topic) then ("swe", "backend", "java")
  else if anyKw kw4 (lower topic) then ("swe", "backend", "python")
  else if anyKw kw5 (lower topic) then ("ai", "agents", "python")
  else if anyKw kw6 (lower topic) then ("ai", "llms", "python")
  else if anyKw kw7 (lower topic) then ("ml", "frameworks", "python")
  else ("swe", "misc", "python")

/-! ## Slug normalizer (`knowledge.py`, lines 32-35) -/

/-- Scanner for `re.sub(r"[^a-z0-9]+", "-", s)`: each maximal run of
characters outside `[a-z0-9]` becomes a single hyphen.  The flag records
whether we are inside such a run. -/
def subAux : Line → Bool → Line
  | [], _ => []
  | c :: cs, inRun =>
    if isLowerAlnum c then c :: subAux cs false
    else if inRun then subAux cs true
    else '-' :: subAux cs true

/-- `re.sub(r"[^a-z0-9]+", "-", s)`. -/
def subNonAlnum (l : Line) : Line :=
  subAux l false

/-- Scanner for `re.sub(r"-{2,}", "-", s)`: collapse each run of hyphens to a
single hyphen (runs of length one are unchanged either way).  The flag
records whether the previous kept character was a hyphen of a run. -/
def collapseAux : Line → Bool → Line
  | [], _ => []
  | c :: cs, prevDash =>
    if c = '-' then
      if prevDash then collapseAux cs true else '-' :: collapseAux cs true
    else c :: collapseAux cs false

/-- `re.sub(r"-{2,}", "-", s)`. -/
def collapseDashes (l : Line) : Line :=
  collapseAux l false

/-- `slug` from `knowledge.py` lines 32-35:
`s.strip().lower()`, then `re.sub(r"[^a-z0-9]+","-",s).strip("-")`, then
`re.sub(r"-{2,}","-",s)`. -/
def slug (s : Line) : Line :=
  collapseDashes (stripBoth isDash (subNonAlnum (lower (stripBoth isSpace s))))

/-- `slug` lifted to Lean `String`s (used for directory names). -/
def slugStr (s : String) : String :=
  String.mk (slug s.toList)

/-! ## Spec-side predicate for C4: the regex `^[a-z0-9]+(-[a-z0-9]+)*$` -/

/-- A hyphen or lower-case alphanumeric character. -/
def isDashOrAlnum (c : Char) : Bool :=
  isLowerAlnum c || isDash c

/-- No two adjacent hyphens. -/
def noDD : Line → Bool
  | [] => true
  | [_] => true
  | a :: b :: t => !(isDash a && isDash b) && noDD (b :: t)

/-- Does the last character satisfy `p` (false on the empty list)? -/
def lastSat (p : Char → Bool) : Line → Bool
  | [] => false
  | [c] => p c
  | _ :: t => lastSat p t

/-- Does the first character satisfy `p` (false on the empty list)? -/
def headSat (p : Char → Bool) : Line → Bool
  | [] => false
  | c :: _ => p c

/-- Recognizer for the spec's regex `^[a-z0-9]+(-[a-z0-9]+)*$`: nonempty,
over the alphabet `[a-z0-9-]`, starting with an alphanumeric, no two
adjacent hyphens, and not ending with a hyphen.  These strings are exactly
blocks of `[a-z0-9]+` separated by single interior hyphens. -/
def slugPattern (l : Line) : Bool :=
  match l with
  | [] => false
  | c :: _ => isLowerAlnum c && l.all isDashOrAlnum && noDD l && !(lastSat isDash l)

/-! ## Filesystem model (for `knowledge.py` and C3/C9/C10) -/

/-- A filesystem path, as a list of components. -/
abbrev Path := List String

/-- Filesystem state: the set of existing directories and a map from file
paths to contents (most recent write first). -/
structure FS where
  dirs : List Path
  files : List (Path × String)
deriving DecidableEq, Repr

/-- Look a file up by path (first, i.e. most recent, entry wins). -/
def lookupFile : List (Path × String) → Path → Option String
  | [], _ => none
  | e :: rest, p => if e.1 = p then some e.2 else lookupFile rest p

def FS.fileExists (fs : FS) (p : Path) : Bool :=
  (lookupFile fs.files p).isSome

def FS.dirExists (fs : FS) (p : Path) : Bool :=
  decide (p ∈ fs.dirs)

/-- `pathlib.Path.exists()`: true for an existing directory or file. -/
def FS.pathExists (fs : FS) (p : Path) : Bool :=
  fs.dirExists p || fs.fileExists p

/-- `mkdir(exist_ok=True)`: create the directory if missing. -/
def FS.mkdir (fs : FS) (p : Path) : FS :=
  if p ∈ fs.dirs then fs else ⟨p :: fs.dirs, fs.files⟩

/-- All nonempty prefixes of a path, shortest first (the chain of ancestors
created by `mkdir(parents=True)`). -/
def pathPrefixes : Path → List Path
  | [] => []
  | c :: cs => [c] :: (pathPrefixes cs).map (fun q => c :: q)

/-- `mkdir(parents=True, exist_ok=True)`: ensure the directory and every
ancestor exists. -/
def FS.mkdirp (fs : FS) (p : Path) : FS :=
  (pathPrefixes p).foldl FS.mkdir fs

/-- `Path.touch()`: create an empty file if missing (an existing file's
content is untouched). -/
def FS.touch (fs : FS) (p : Path) : FS :=
  if (lookupFile fs.files p).isSome then fs else ⟨fs.dirs, (p, "") :: fs.files⟩

/-- `Path.write_text(content)`. -/
def FS.writeText (fs : FS) (p : Path) (c : String) : FS :=
  ⟨fs.dirs, (p, c) :: fs.files⟩

def FS.readFile (fs : FS) (p : Path) : Option String :=
  lookupFile fs.files p

def emptyFS : FS :=
  ⟨[], []⟩

/-! ## `knowledge.py`: CATEGORIES, ensure_tree, add_topic -/

/-- The hard-coded taxonomy `CATEGORIES` from `knowledge.py` lines 7-30:
area name, then per group its name and suggested topic directories. -/
def CATEGORIES : List (String × List (String × List String)) :=
  [("swe",
    [("frontend", ["react", "typescript", "css-tailwind"]),
     ("backend", ["java-spring", "python-django", "node-express"]),
     ("languages", ["javascript", "python", "java", "rust"]),
     ("devops", ["git", "ci-cd", "docker-k8s", "cloud-aws", "shell"]),
     ("security", ["web-security", "authentication", "cryptography"]),
     ("misc", [])]),
   ("ml",
    [("fundamentals", ["linear-regression", "decision-trees", "clustering"]),
     ("data-engineering", ["preprocessing", "feature-engineering", "pipelines"]),
     ("mlops", ["model-training", "model-deployment", "monitoring"]),
     ("frameworks", ["sklearn", "tensorflow", "pytorch"]),
     ("misc", [])]),
   ("ai",
    [("llms", ["prompting", "fine-tuning", "evals", "safety-redteaming"]),
     ("nlp-classic", ["embeddings", "transformers", "seq2seq"]),
     ("agents", ["langchain", "crewai", "orchestration"]),
     ("applications", ["chatbots", "search", "retrieval-augmented-gen"]),
     ("misc", [])])]

/-- `ensure_tree` from `knowledge.py` lines 37-46: create every area/group
directory with a `.gitkeep`, every suggested topic subdirectory with a
`.gitkeep`, and touch `INDEX.md` (root `knowledge`). -/
def ensure_tree (fs : FS) : FS :=
  let fs :=
    CATEGORIES.foldl (fun fs ag =>
      ag.2.foldl (fun fs g =>
        let base : Path := ["knowledge", ag.1, g.1]
        let fs := fs.mkdirp base
        let fs := fs.touch (base ++ [".gitkeep"])
        g.2.foldl (fun fs t =>
          let fs := fs.mkdirp (base ++ [t])
          fs.touch (base ++ [t, ".gitkeep"])) fs) fs) fs
  fs.touch ["knowledge", "INDEX.md"]

/-- `str.lower()` on a Lean `String` (ASCII). -/
def pyLowerS (s : String) : String :=
  String.mk (lower s.toList)

/-- The topic directory `ROOT / area.lower() / group.lower() / slug(topic)`. -/
def destPath (area group topic : String) : Path :=
  ["knowledge", pyLowerS area, pyLowerS group, slugStr topic]

/-- The extension dictionary
`{"python":"py","typescript":"ts","javascript":"js","bash":"sh"}.get(lang, "txt")`
from `knowledge.py` line 85. -/
def extMap (lang : String) : String :=
  if lang = "python" then "py"
  else if lang = "typescript" then "ts"
  else if lang = "javascript" then "js"
  else if lang = "bash" then "sh"
  else "txt"

/-- The example-body dictionary from `knowledge.py` lines 88-93, with default
`"Example placeholder.\n"`. -/
def codeMap (lang : String) : String :=
  if lang = "python" then "print(\"hello from example\")\n"
  else if lang = "javascript" then "console.log(\"hello from example\")\n"
  else if lang = "typescript" then "console.log(\"hello from example\")\n"
  else if lang = "bash" then "echo \"hello from example\"\n"
  else "Example placeholder.\n"

/-- The dedented README template of `knowledge.py` lines 61-82 (`area` and
`group` are already lower-cased by `add_topic`; `today` is
`datetime.now().strftime("%Y-%m-%d")`). -/
def readmeText (topic area group today : String) : String :=
  "# " ++ topic ++ "\n\n**Area:** " ++ area ++ " / **Group:** " ++ group ++
  "  \n**Created:** " ++ today ++
  "\n\n## Difficulty\n(easy|medium|hard)\n\n## Why this matters\n(short note)\n\n" ++
  "## Key concepts\n- …\n\n## Pitfalls\n- …\n\n## Further reading\n- …\n\n"

/-- `add_topic` from `knowledge.py` lines 48-96: ensure the topic directory,
`examples` subdirectory and `.gitkeep` exist, then write the README and the
example file only if absent.  `today` stands for the current date used in
the README template. -/
def add_topic (fs : FS) (area group topic lang today : String) : FS :=
  let dest := destPath area group topic
  let fs1 := if fs.pathExists dest then fs else fs.mkdirp dest
  let fs2 := fs1.mkdir (dest ++ ["examples"])
  let fs3 := fs2.touch (dest ++ [".gitkeep"])
  let fs4 :=
    if fs3.fileExists (dest ++ ["README.md"]) then fs3
    else fs3.writeText (dest ++ ["README.md"])
      (readmeText topic (pyLowerS area) (pyLowerS group) today)
  let ex := dest ++ ["examples", "main." ++ extMap lang]
  if fs4.fileExists ex then fs4 else fs4.writeText ex (codeMap lang)

/-! ## Index builder (`build_index.py`, lines 8-30) -/

/-- A topic directory as seen by `build_index`: its name and whether it
contains a `README.md`. -/
structure TopicDir where
  name : String
  hasReadme : Bool
deriving DecidableEq, Repr

/-- A group directory: its name and its topic subdirectories. -/
structure GroupDir where
  name : String
  topics : List TopicDir
deriving DecidableEq, Repr

/-- An area directory: its name and its group subdirectories. -/
structure AreaDir where
  name : String
  groups : List GroupDir
deriving DecidableEq, Repr

/-- Insertion sort by a string key (the order `sorted(...)` produces on the
directory names). -/
def insertByName (key : α → String) (x : α) : List α → List α
  | [] => [x]
  | y :: ys => if key x ≤ key y then x :: y :: ys else y :: insertByName key x ys

def sortByName (key : α → String) (l : List α) : List α :=
  l.foldr (insertByName key) []

/-- Python `str.capitalize()`: first character upper-cased, the rest
lower-cased (ASCII). -/
def pyCapitalize (s : String) : String :=
  match s.toList with
  | [] => ""
  | c :: cs => String.mk (c.toUpper :: cs.map Char.toLower)

/-- Python `str.upper()` (ASCII). -/
def pyUpperS (s : String) : String :=
  String.mk (s.toList.map Char.toUpper)

/-- `name.startswith(".")`. -/
def startsWithDot (s : String) : Bool :=
  match s.toList with
  | c :: _ => decide (c = '.')
  | [] => false

/-- The link title: `topic_dir.name.replace("-", " ").capitalize()`. -/
def titleOf (name : String) : String :=
  pyCapitalize (String.mk (name.toList.map (fun c => if c = '-' then ' ' else c)))

/-- `build_index` from `build_index.py` lines 8-30, over the directory tree
under `knowledge`: the list of lines written to `INDEX.md` (they are joined
with a newline by the script).  Dot-prefixed names are skipped at every
level; non-directory entries do not appear in the tree model (the only
files involved are the READMEs, carried as `hasReadme`). -/
def build_index (areas : List AreaDir) : List String :=
  (sortByName AreaDir.name areas).foldl (fun lines a =>
    if startsWithDot a.name then lines else
    let lines := lines ++ ["## " ++ pyUpperS a.name]
    let lines :=
      (sortByName GroupDir.name a.groups).foldl (fun lines g =>
        if startsWithDot g.name then lines else
        let lines := lines ++ ["- " ++ pyCapitalize g.name]
        (sortByName TopicDir.name g.topics).foldl (fun lines t =>
          if startsWithDot t.name then lines else
          if t.hasReadme then
            lines ++
              ["  - [" ++ titleOf t.name ++ "](" ++ a.name ++ "/" ++ g.name ++ "/" ++
               t.name ++ "/README.md)"]
          else lines) lines) lines
    lines ++ [""]) ["# 📚 Knowledge Index\n"]

/-! ## Study orchestrator commit step (`study_agent.py`, lines 88-94) -/

/-- `subprocess.CalledProcessError`, carrying the nonzero exit code. -/
structure CalledProcessError where
  returncode : Nat
deriving DecidableEq, Repr

/-- `subprocess.run([...], check=True)`: raises `CalledProcessError` on a
nonzero exit code. -/
def runCheck (exitCode : Nat) : Except CalledProcessError Unit :=
  if exitCode = 0 then Except.ok () else Except.error ⟨exitCode⟩

/-- The body of the `try:` block at the end of `main`: `git add -A`, then
`git commit -m ...`, then the success message.  Any `CalledProcessError`
aborts the block. -/
def commitBlock (addCode commitCode : Nat) : Except CalledProcessError String :=
  match runCheck addCode with
  | Except.error e => Except.error e
  | Except.ok _ =>
    match runCheck commitCode with
    | Except.error e => Except.error e
    | Except.ok _ => Except.ok "✅ committed changes"

/-- The whole `try/except subprocess.CalledProcessError` of `main` lines
88-94: a failure of either git command is caught and replaced by the
informational message; the function always returns normally (`Except.ok`),
never propagating the error. -/
def mainCommitStep (addCode commitCode : Nat) : Except CalledProcessError String :=
  match commitBlock addCode commitCode with
  | Except.ok m => Except.ok m
  | Except.error _ => Except.ok "ℹ️ nothing to commit"

/-! ## Concrete documents used by the claims -/

/-- The round-trip document of the spec: section `## 2025-06-01` with a
`Topics:` list of two bullets and a `Notes:` list of one bullet. -/
def exampleBody : List Line :=
  ["Topics:".toList, "- rust basics".toList, "- docker networking".toList,
   "".toList, "Notes:".toList, "- review later".toList]

def exampleDoc : List Line :=
  "## 2025-06-01".toList :: exampleBody

/-- Every keyword of every routing group. -/
def allKeywords : List Line :=
  kw1 ++ kw2 ++ kw3 ++ kw4 ++ kw5 ++ kw6 ++ kw7

/-- The seven (area, group) pairs `route` can return. -/
def sevenPairs : List (String × String) :=
  [("swe", "frontend"), ("swe", "devops"), ("swe", "backend"),
   ("ai", "agents"), ("ai", "llms"), ("ml", "frameworks"), ("swe", "misc")]

/-- Is `(a, g)` an area/group pair of the `CATEGORIES` taxonomy? -/
def inCats (a g : String) : Bool :=
  CATEGORIES.any (fun ag => decide (ag.1 = a) && ag.2.any (fun gr => decide (gr.1 = g)))

/-- The one-area, one-group, one-topic tree of the index-builder example. -/
def exampleTree : List AreaDir :=
  [⟨"swe", [⟨"frontend", [⟨"react-hooks", true⟩]⟩]⟩]

/-! ## Theorems -/

/-- C1: on the spec's round-trip document, `parse_yearly_journal` returns
`topics = ["rust basics"]` — only the first bullet line after `Topics:` —
and `notes = ["review later"]`; in particular it does NOT return the
claimed `topics = ["rust basics", "docker networking"]`.  The `parse_list`
regex is compiled without `re.DOTALL`, so its `BLOCK` capture stops at the
first newline. -/
theorem c1_parse_drops_later_bullets :
    parse_yearly_journal exampleDoc ("2025-06-01".toList) =
      ⟨"2025-06-01".toList, ["rust basics".toList], ["review later".toList]⟩ ∧
    parse_yearly_journal exampleDoc ("2025-06-01".toList) ≠
      ⟨"2025-06-01".toList, ["rust basics".toList, "docker networking".toList],
       ["review later".toList]⟩ := by
  constructor <;> decide

/-- C6: the orchestrator's final stage-and-commit step always returns
normally (`Except.ok`), whatever the exit codes of `git add` and
`git commit`; when either command fails the result is the informational
message, and when both succeed it is the success message.  The
`CalledProcessError` raised inside the `try:` block is never propagated. -/
theorem c6_commit_failure_not_fatal : ∀ addCode commitCode : Nat,
    (∃ msg, mainCommitStep addCode commitCode = Except.ok msg) ∧
    (addCode ≠ 0 ∨ commitCode ≠ 0 →
      mainCommitStep addCode commitCode = Except.ok "ℹ️ nothing to commit") ∧
    (addCode = 0 ∧ commitCode = 0 →
      mainCommitStep addCode commitCode = Except.ok "✅ committed changes") := by
  intro a c
  by_cases ha : a = 0 <;> by_cases hc : c = 0 <;>
    simp [mainCommitStep, commitBlock, runCheck, ha, hc]

/-- Witness for C6 at concrete exit codes: a failing `git commit`
(exit code 1) yields the informational message. -/
theorem c6_commit_failure_not_fatal_witness :
    mainCommitStep 0 1 = Except.ok "ℹ️ nothing to commit" :=
  (c6_commit_failure_not_fatal 0 1).2.1 (Or.inr (by decide))

/-- C7: on the tree with one area `swe`, one group `frontend` and one topic
`react-hooks` containing a README, the generated index contains the
heading `## SWE`, the bullet `- Frontend`, and the nested link bullet
`  - [React hooks](swe/frontend/react-hooks/README.md)`. -/
theorem c7_index_example :
    "## SWE" ∈ build_index exampleTree ∧
    "- Frontend" ∈ build_index exampleTree ∧
    "  - [React hooks](swe/frontend/react-hooks/README.md)" ∈ build_index exampleTree := by
  exact ⟨by decide, by decide, by decide⟩

/-- C2: `route "java python" = ("swe", "backend", "java")`, and for every
topic whose lower-casing contains a group-3 keyword (`java` or `spring`)
and a group-4 keyword (`django` or `python`) but no keyword of groups 1-2,
`route` returns `("swe", "backend", "java")` — group 3 is checked first,
regardless of where the keywords occur. -/
theorem c2_java_python_tiebreak :
    route ("java python".toList) = ("swe", "backend", "java") ∧
    ∀ t : Line,
      (isSub ("java".toList) (lower t) = true ∨ isSub ("spring".toList) (lower t) = true) →
      (isSub ("django".toList) (lower t) = true ∨ isSub ("python".toList) (lower t) = true) →
      (∀ k ∈ kw1, isSub k (lower t) = false) →
      (∀ k ∈ kw2, isSub k (lower t) = false) →
      route t = ("swe", "backend", "java") := by
  refine ⟨by decide, ?_⟩
  intro t h3 h4 h1 h2
  have h1' : anyKw kw1 (lower t) = false := by
    simp only [anyKw, List.any_eq_false]
    intro k hk
    simp [h1 k hk]
  have h2' : anyKw kw2 (lower t) = false := by
    simp only [anyKw, List.any_eq_false]
    intro k hk
    simp [h2 k hk]
  have h3' : anyKw kw3 (lower t) = true := by
    rcases h3 with h | h
    · exact List.any_eq_true.mpr ⟨"java".toList, by simp [kw3], h⟩
    · exact List.any_eq_true.mpr ⟨"spring".toList, by simp [kw3], h⟩
  simp [route, h1', h2', h3']

/-- Witness for C2 at `t = "java python"`, discharging the containment and
exclusion hypotheses by computation. -/
theorem c2_java_python_tiebreak_witness :
    route ("java python".toList) = ("swe", "backend", "java") :=
  c2_java_python_tiebreak.2 ("java python".toList)
    (Or.inl (by decide)) (Or.inr (by decide)) (by decide) (by decide)

/-- C8: the four concrete routings of the spec, and the fallback: any topic
whose lower-casing contains no keyword of any group routes to
`("swe", "misc", "python")`. -/
theorem c8_router_determinism :
    route ("Learning Django REST".toList) = ("swe", "backend", "python") ∧
    route ("Kubernetes CI/CD pipeline".toList) = ("swe", "devops", "bash") ∧
    route ("Fine-tuning a transformer".toList) = ("ai", "llms", "python") ∧
    route ("something unrelated".toList) = ("swe", "misc", "python") ∧
    ∀ t : Line, (∀ k ∈ allKeywords, isSub k (lower t) = false) →
      route t = ("swe", "misc", "python") := by
  refine ⟨by decide, by decide, by decide, by decide, ?_⟩
  intro t h
  have hg : ∀ ks : List Line, (∀ k ∈ ks, k ∈ allKeywords) → anyKw ks (lower t) = false := by
    intro ks hks
    simp only [anyKw, List.any_eq_false]
    intro k hk
    simp [h k (hks k hk)]
  have e1 : anyKw kw1 (lower t) = false := hg kw1 (by intro k hk; simp [allKeywords, hk])
  have e2 : anyKw kw2 (lower t) = false := hg kw2 (by intro k hk; simp [allKeywords, hk])
  have e3 : anyKw kw3 (lower t) = false := hg kw3 (by intro k hk; simp [allKeywords, hk])
  have e4 : anyKw kw4 (lower t) = false := hg kw4 (by intro k hk; simp [allKeywords, hk])
  have e5 : anyKw kw5 (lower t) = false := hg kw5 (by intro k hk; simp [allKeywords, hk])
  have e6 : anyKw kw6 (lower t) = false := hg kw6 (by intro k hk; simp [allKeywords, hk])
  have e7 : anyKw kw7 (lower t) = false := hg kw7 (by intro k hk; simp [allKeywords, hk])
  simp [route, e1, e2, e3, e4, e5, e6, e7]

/-- Witness for C8's fallback hypothesis at the keyword-free topic `"zzz"`. -/
theorem c8_router_determinism_witness :
    route ("zzz".toList) = ("swe", "misc", "python") :=
  c8_router_determinism.2.2.2.2 ("zzz".toList) (by decide)

set_option maxRecDepth 40000 in
/-- C9: for every topic string, the (area, group) pair returned by `route`
is one of the seven pairs listed in the claim, is an area/group pair of
the `CATEGORIES` taxonomy, and names a group directory that
`ensure_tree` creates (here from an empty filesystem). -/
theorem c9_route_lands_in_scaffold : ∀ t : Line,
    ((route t).1, (route t).2.1) ∈ sevenPairs ∧
    inCats (route t).1 (route t).2.1 = true ∧
    (ensure_tree emptyFS).dirExists ["knowledge", (route t).1, (route t).2.1] = true := by
  intro t
  unfold route
  repeat' split
  all_goals exact ⟨by decide, by decide, by decide⟩

/-- Lines before the first heading with the target date do not change the
section `parse_yearly_journal`'s loop selects. -/
theorem sections_drop_nontarget (target : Line) :
    ∀ xs ys : List Line, (∀ l ∈ xs, dateOfHeading l ≠ some target) →
      findSection (sections (xs ++ ys)) target = findSection (sections ys) target := by
  intro xs
  induction xs with
  | nil => intro ys _; rfl
  | cons x xs ih =>
    intro ys h
    cases hx : dateOfHeading x with
    | none =>
      simp only [List.cons_append, sections, hx]
      exact ih ys (fun l hl => h l (List.mem_cons_of_mem x hl))
    | some d =>
      have hd : ¬(d = target) := by
        intro e
        exact h x (List.mem_cons_self x xs) (by rw [hx, e])
      simp only [List.cons_append, sections, hx, findSection, if_neg hd]
      exact ih ys (fun l hl => h l (List.mem_cons_of_mem x hl))

/-- `takeBody` passes over non-heading lines. -/
theorem takeBody_append :
    ∀ xs ys : List Line, (∀ l ∈ xs, dateOfHeading l = none) →
      takeBody (xs ++ ys) = (xs ++ (takeBody ys).1, (takeBody ys).2) := by
  intro xs
  induction xs with
  | nil => intro ys _; rfl
  | cons x xs ih =>
    intro ys h
    have hx : dateOfHeading x = none := h x (List.mem_cons_self x xs)
    have hih := ih ys (fun l hl => h l (List.mem_cons_of_mem x hl))
    simp only [List.cons_append, takeBody, hx, List.append_eq, hih]

/-- C5: (1) if no line of the document is a date heading for the target
date, `parse_yearly_journal` returns the empty result for that date; and
(2) the selected section is the first heading line carrying the target
date, and extends up to the next date heading (or the end of the
document): parsing `pre ++ [hline] ++ body ++ rest` — where `pre` has no
target-date heading, `hline` is a target-date heading, `body` has no
heading lines and `rest` is empty or starts with a heading — yields
exactly the `Topics:`/`Notes:` lists parsed from `body`. -/
theorem c5_first_section_or_empty :
    (∀ (doc : List Line) (target : Line),
      (∀ l ∈ doc, dateOfHeading l ≠ some target) →
      parse_yearly_journal doc target = ⟨target, [], []⟩) ∧
    (∀ (pre : List Line) (hline : Line) (body rest : List Line) (target : Line),
      dateOfHeading hline = some target →
      (∀ l ∈ pre, dateOfHeading l ≠ some target) →
      (∀ l ∈ body, dateOfHeading l = none) →
      (rest = [] ∨ (dateOfHeading (rest.headD [])).isSome = true) →
      parse_yearly_journal (pre ++ hline :: (body ++ rest)) target =
        ⟨target, parse_list ("Topics".toList) body, parse_list ("Notes".toList) body⟩) := by
  constructor
  · intro doc target h
    have e : findSection (sections doc) target = none := by
      have := sections_drop_nontarget target doc [] h
      rw [List.append_nil] at this
      exact this
    simp [parse_yearly_journal, e]
  · intro pre hline body rest target hH hpre hbody hrest
    have hrest' : (takeBody rest).1 = [] := by
      rcases hrest with rfl | hr
      · rfl
      · cases rest with
        | nil => rfl
        | cons r rs =>
          simp only [List.headD_cons] at hr
          cases he : dateOfHeading r with
          | none => rw [he] at hr; simp at hr
          | some d => simp [takeBody, he]
    have hsel : findSection (sections (pre ++ hline :: (body ++ rest))) target =
        some body := by
      rw [sections_drop_nontarget target pre _ hpre]
      simp only [sections, hH, findSection, takeBody_append body rest hbody,
        hrest', List.append_nil]
      simp
    cases hb : body with
    | nil =>
      subst hb
      simp only [List.nil_append] at hsel
      simp [parse_yearly_journal, hsel, parse_list]
    | cons b bs =>
      rw [← hb]
      have hne : ¬(body = []) := by rw [hb]; simp
      simp [parse_yearly_journal, hsel, hne]

/-- Witness for C5: part (1) at the round-trip document and the missing date
`2099-01-01`; part (2) at that document decomposed as
`[] ++ heading :: (body ++ [])`. -/
theorem c5_first_section_or_empty_witness :
    parse_yearly_journal exampleDoc ("2099-01-01".toList) =
      ⟨"2099-01-01".toList, [], []⟩ ∧
    parse_yearly_journal ([] ++ "## 2025-06-01".toList :: (exampleBody ++ []))
        ("2025-06-01".toList) =
      ⟨"2025-06-01".toList, parse_list ("Topics".toList) exampleBody,
       parse_list ("Notes".toList) exampleBody⟩ :=
  ⟨c5_first_section_or_empty.1 exampleDoc ("2099-01-01".toList) (by decide),
   c5_first_section_or_empty.2 [] ("## 2025-06-01".toList) exampleBody []
     ("2025-06-01".toList) (by decide) (by decide) (by decide) (Or.inl rfl)⟩

/-! ### Filesystem lemmas -/

theorem fs_mkdir_files (fs : FS) (p : Path) : (fs.mkdir p).files = fs.files := by
  unfold FS.mkdir
  split <;> rfl

theorem fs_dirExists_congr {fs1 fs2 : FS} (h : fs1.dirs = fs2.dirs) (q : Path) :
    fs1.dirExists q = fs2.dirExists q := by
  simp [FS.dirExists, h]

theorem fs_fileExists_congr {fs1 fs2 : FS} (h : fs1.files = fs2.files) (q : Path) :
    fs1.fileExists q = fs2.fileExists q := by
  simp [FS.fileExists, h]

theorem fs_readFile_congr {fs1 fs2 : FS} (h : fs1.files = fs2.files) (q : Path) :
    fs1.readFile q = fs2.readFile q := by
  simp [FS.readFile, h]

theorem fs_mkdir_dirExists_self (fs : FS) (p : Path) : (fs.mkdir p).dirExists p = true := by
  unfold FS.mkdir
  split
  next h => simp [FS.dirExists, h]
  next => simp [FS.dirExists]

theorem fs_mkdir_dirExists_mono (fs : FS) (p q : Path) (h : fs.dirExists q = true) :
    (fs.mkdir p).dirExists q = true := by
  unfold FS.mkdir
  split
  · exact h
  · simp only [FS.dirExists, decide_eq_true_eq] at h ⊢
    exact List.mem_cons_of_mem p h

theorem fs_foldl_mkdir_files (ps : List Path) (fs : FS) :
    (ps.foldl FS.mkdir fs).files = fs.files := by
  induction ps generalizing fs with
  | nil => rfl
  | cons p ps ih => simp only [List.foldl_cons]; rw [ih, fs_mkdir_files]

theorem fs_foldl_mkdir_mono (ps : List Path) (fs : FS) (q : Path)
    (h : fs.dirExists q = true) : (ps.foldl FS.mkdir fs).dirExists q = true := by
  induction ps generalizing fs with
  | nil => exact h
  | cons p ps ih => exact ih (fs.mkdir p) (fs_mkdir_dirExists_mono fs p q h)

theorem fs_foldl_mkdir_mem (ps : List Path) (fs : FS) (q : Path) (h : q ∈ ps) :
    (ps.foldl FS.mkdir fs).dirExists q = true := by
  induction ps generalizing fs with
  | nil => cases h
  | cons p ps ih =>
    cases h with
    | head => exact fs_foldl_mkdir_mono ps (fs.mkdir q) q (fs_mkdir_dirExists_self fs q)
    | tail _ h => exact ih (fs.mkdir p) h

theorem mem_pathPrefixes_self : ∀ p : Path, p ≠ [] → p ∈ pathPrefixes p := by
  intro p
  induction p with
  | nil => intro h; exact absurd rfl h
  | cons c cs ih =>
    intro _
    cases cs with
    | nil => simp [pathPrefixes]
    | cons d ds =>
      simp only [pathPrefixes]
      exact List.mem_cons_of_mem _ (List.mem_map.mpr ⟨d :: ds, ih (by simp), rfl⟩)

theorem fs_mkdirp_files (fs : FS) (p : Path) : (fs.mkdirp p).files = fs.files :=
  fs_foldl_mkdir_files _ _

theorem fs_mkdirp_self (fs : FS) (p : Path) (h : p ≠ []) :
    (fs.mkdirp p).dirExists p = true :=
  fs_foldl_mkdir_mem _ _ _ (mem_pathPrefixes_self p h)

theorem fs_touch_dirs (fs : FS) (p : Path) : (fs.touch p).dirs = fs.dirs := by
  unfold FS.touch
  split <;> rfl

theorem fs_touch_fileExists_self (fs : FS) (p : Path) : (fs.touch p).fileExists p = true := by
  unfold FS.touch
  split
  next h => exact h
  next => simp [FS.fileExists, lookupFile]

theorem fs_touch_fileExists_mono (fs : FS) (p q : Path) (h : fs.fileExists q = true) :
    (fs.touch p).fileExists q = true := by
  unfold FS.touch
  split
  · exact h
  · simp only [FS.fileExists, lookupFile] at h ⊢
    split
    · rfl
    · exact h

theorem fs_touch_readFile_ne (fs : FS) (p q : Path) (h : ¬(p = q)) :
    (fs.touch p).readFile q = fs.readFile q := by
  unfold FS.touch
  split
  · rfl
  · simp [FS.readFile, lookupFile, h]

theorem fs_write_fileExists_self (fs : FS) (p : Path) (c : String) :
    (fs.writeText p c).fileExists p = true := by
  simp [FS.writeText, FS.fileExists, lookupFile]

theorem fs_write_fileExists_mono (fs : FS) (p : Path) (c : String) (q : Path)
    (h : fs.fileExists q = true) : (fs.writeText p c).fileExists q = true := by
  simp only [FS.writeText, FS.fileExists, lookupFile] at h ⊢
  split
  · rfl
  · exact h

theorem fs_write_readFile_self (fs : FS) (p : Path) (c : String) :
    (fs.writeText p c).readFile p = some c := by
  simp [FS.writeText, FS.readFile, lookupFile]

theorem fs_write_readFile_ne (fs : FS) (p : Path) (c : String) (q : Path) (h : ¬(p = q)) :
    (fs.writeText p c).readFile q = fs.readFile q := by
  simp [FS.writeText, FS.readFile, lookupFile, h]

theorem fs_pathExists_of_dir (fs : FS) (p : Path) (h : fs.dirExists p = true) :
    fs.pathExists p = true := by
  simp [FS.pathExists, h]

theorem fs_mkdir_pathExists_mono (fs : FS) (p q : Path) (h : fs.pathExists q = true) :
    (fs.mkdir p).pathExists q = true := by
  simp only [FS.pathExists, Bool.or_eq_true] at h ⊢
  rcases h with h | h
  · exact Or.inl (fs_mkdir_dirExists_mono fs p q h)
  · right
    rw [fs_fileExists_congr (fs_mkdir_files fs p)]
    exact h

theorem fs_touch_pathExists_mono (fs : FS) (p q : Path) (h : fs.pathExists q = true) :
    (fs.touch p).pathExists q = true := by
  simp only [FS.pathExists, Bool.or_eq_true] at h ⊢
  rcases h with h | h
  · left
    rw [fs_dirExists_congr (fs_touch_dirs fs p)]
    exact h
  · exact Or.inr (fs_touch_fileExists_mono fs p q h)

theorem fs_write_pathExists_mono (fs : FS) (p : Path) (c : String) (q : Path)
    (h : fs.pathExists q = true) : (fs.writeText p c).pathExists q = true := by
  simp only [FS.pathExists, Bool.or_eq_true] at h ⊢
  rcases h with h | h
  · exact Or.inl (by simpa [FS.writeText, FS.dirExists] using h)
  · exact Or.inr (fs_write_fileExists_mono fs p c q h)

theorem fs_ensure_write_fileExists (fs : FS) (p : Path) (c : String) :
    (if fs.fileExists p then fs else fs.writeText p c).fileExists p = true := by
  split
  next h => exact h
  next => exact fs_write_fileExists_self fs p c

theorem fs_ensure_write_fe_mono (fs : FS) (p : Path) (c : String) (q : Path)
    (h : fs.fileExists q = true) :
    (if fs.fileExists p then fs else fs.writeText p c).fileExists q = true := by
  split
  · exact h
  · exact fs_write_fileExists_mono fs p c q h

theorem fs_ensure_write_dirs (fs : FS) (p : Path) (c : String) :
    (if fs.fileExists p then fs else fs.writeText p c).dirs = fs.dirs := by
  split <;> rfl

theorem fs_ensure_write_pathExists_mono (fs : FS) (p : Path) (c : String) (q : Path)
    (h : fs.pathExists q = true) :
    (if fs.fileExists p then fs else fs.writeText p c).pathExists q = true := by
  split
  · exact h
  · exact fs_write_pathExists_mono fs p c q h

theorem fs_ensure_write_readFile_none (fs : FS) (p : Path) (c : String) (q : Path)
    (hpq : ¬(p = q)) (h : fs.readFile q = none) :
    (if fs.fileExists p then fs else fs.writeText p c).readFile q = none := by
  split
  · exact h
  · rw [fs_write_readFile_ne fs p c q hpq]
    exact h

theorem fs_create_write_readFile (fs : FS) (p : Path) (c : String)
    (h : fs.readFile p = none) :
    (if fs.fileExists p then fs else fs.writeText p c).readFile p = some c := by
  have hfe : fs.fileExists p = false := by
    simp only [FS.readFile] at h
    simp [FS.fileExists, h]
  simp only [hfe, Bool.false_eq_true, if_false]
  exact fs_write_readFile_self fs p c

/-! ### `add_topic` post-state facts -/

theorem add_topic_dest_pathExists (fs : FS) (a g t l d : String) :
    (add_topic fs a g t l d).pathExists (destPath a g t) = true := by
  simp only [add_topic]
  apply fs_ensure_write_pathExists_mono
  apply fs_ensure_write_pathExists_mono
  apply fs_touch_pathExists_mono
  apply fs_mkdir_pathExists_mono
  split
  next h => exact h
  next => exact fs_pathExists_of_dir _ _ (fs_mkdirp_self fs _ (by simp [destPath]))

theorem add_topic_examples_dirExists (fs : FS) (a g t l d : String) :
    (add_topic fs a g t l d).dirExists (destPath a g t ++ ["examples"]) = true := by
  simp only [add_topic]
  rw [fs_dirExists_congr (fs_ensure_write_dirs _ _ _)]
  rw [fs_dirExists_congr (fs_ensure_write_dirs _ _ _)]
  rw [fs_dirExists_congr (fs_touch_dirs _ _)]
  exact fs_mkdir_dirExists_self _ _

theorem add_topic_gitkeep_fileExists (fs : FS) (a g t l d : String) :
    (add_topic fs a g t l d).fileExists (destPath a g t ++ [".gitkeep"]) = true := by
  simp only [add_topic]
  apply fs_ensure_write_fe_mono
  apply fs_ensure_write_fe_mono
  exact fs_touch_fileExists_self _ _

theorem add_topic_readme_fileExists (fs : FS) (a g t l d : String) :
    (add_topic fs a g t l d).fileExists (destPath a g t ++ ["README.md"]) = true := by
  simp only [add_topic]
  apply fs_ensure_write_fe_mono
  exact fs_ensure_write_fileExists _ _ _

theorem add_topic_example_fileExists (fs : FS) (a g t l d : String) :
    (add_topic fs a g t l d).fileExists
      (destPath a g t ++ ["examples", "main." ++ extMap l]) = true := by
  simp only [add_topic]
  exact fs_ensure_write_fileExists _ _ _

/-- A second `add_topic` run on a state where everything it would create
already exists is the identity: every write is gated by an existence
check. -/
theorem add_topic_skip (fs : FS) (area group topic lang today : String)
    (h1 : fs.pathExists (destPath area group topic) = true)
    (h2 : fs.dirExists (destPath area group topic ++ ["examples"]) = true)
    (h3 : fs.fileExists (destPath area group topic ++ [".gitkeep"]) = true)
    (h4 : fs.fileExists (destPath area group topic ++ ["README.md"]) = true)
    (h5 : fs.fileExists (destPath area group topic ++ ["examples", "main." ++ extMap lang]) =
      true) :
    add_topic fs area group topic lang today = fs := by
  have h2' : (destPath area group topic ++ ["examples"]) ∈ fs.dirs := by
    simpa [FS.dirExists] using h2
  have h3' : (lookupFile fs.files (destPath area group topic ++ [".gitkeep"])).isSome =
      true := h3
  simp only [add_topic, FS.mkdir, FS.touch, h1, h2', h3', h4, h5, if_true]

/-- C3: `add_topic` is idempotent — a second call with identical arguments
(whatever date the two runs happen on) leaves the filesystem exactly as
after the first call: the existing README and example file are never
overwritten or altered. -/
theorem c3_add_topic_idempotent :
    ∀ (fs : FS) (area group topic lang d1 d2 : String),
      add_topic (add_topic fs area group topic lang d1) area group topic lang d2 =
        add_topic fs area group topic lang d1 := by
  intro fs a g t l d1 d2
  exact add_topic_skip _ a g t l d2
    (add_topic_dest_pathExists fs a g t l d1)
    (add_topic_examples_dirExists fs a g t l d1)
    (add_topic_gitkeep_fileExists fs a g t l d1)
    (add_topic_readme_fileExists fs a g t l d1)
    (add_topic_example_fileExists fs a g t l d1)

/-- When the example file is absent, `add_topic` creates it at
`examples/main.<ext>` with the body `codeMap lang`. -/
theorem add_topic_creates_example (fs : FS) (a g t l d : String)
    (habs : fs.readFile (destPath a g t ++ ["examples", "main." ++ extMap l]) = none) :
    (add_topic fs a g t l d).readFile
      (destPath a g t ++ ["examples", "main." ++ extMap l]) = some (codeMap l) := by
  simp only [add_topic]
  apply fs_create_write_readFile
  apply fs_ensure_write_readFile_none
  · intro e
    have := List.append_cancel_left e
    simp at this
  · rw [fs_touch_readFile_ne]
    · rw [fs_readFile_congr (fs_mkdir_files _ _)]
      split
      · exact habs
      · rw [fs_readFile_congr (fs_mkdirp_files _ _)]
        exact habs
    · intro e
      have := List.append_cancel_left e
      simp at this

/-- C10: whenever `route` classifies a topic into keyword group 3 (language
`java`), the extension map has no entry for `java` and falls back to
`txt`; materializing such a topic on a state without the example file
creates `examples/main.txt` containing the generic placeholder line. -/
theorem c10_java_topic_gets_txt_placeholder :
    ∀ (t : Line) (fs : FS) (area group topic today : String),
      (route t).2.2 = "java" →
      fs.readFile (destPath area group topic ++ ["examples", "main.txt"]) = none →
      extMap (route t).2.2 = "txt" ∧
      (add_topic fs area group topic ((route t).2.2) today).readFile
        (destPath area group topic ++ ["examples", "main.txt"]) =
        some "Example placeholder.\n" := by
  intro t fs a g tp td hr habs
  rw [hr]
  refine ⟨by decide, ?_⟩
  have hm : ("main." ++ extMap "java" : String) = "main.txt" := by decide
  rw [← hm] at habs ⊢
  rw [add_topic_creates_example fs a g tp "java" td habs]
  decide

/-- Witness for C10 at the topic `"java stuff"` (routed to group 3) on the
empty filesystem. -/
theorem c10_java_topic_gets_txt_placeholder_witness :
    extMap (route ("java stuff".toList)).2.2 = "txt" ∧
    (add_topic emptyFS "swe" "backend" "java stuff"
        ((route ("java stuff".toList)).2.2) "2026-01-01").readFile
      (destPath "swe" "backend" "java stuff" ++ ["examples", "main.txt"]) =
      some "Example placeholder.\n" :=
  c10_java_topic_gets_txt_placeholder ("java stuff".toList) emptyFS
    "swe" "backend" "java stuff" "2026-01-01" (by decide) (by decide)

/-! ### Character-level lemmas for the slug normalizer -/

theorem ch_alnum_toLower_fix (c : Char) (h : isDashOrAlnum c = true) : Char.toLower c = c := by
  simp only [isDashOrAlnum, isLowerAlnum, isDash, Bool.or_eq_true, Bool.and_eq_true,
    decide_eq_true_eq] at h
  rcases h with (⟨h1, h2⟩ | ⟨h1, h2⟩) | rfl
  · simp only [Char.toLower]
    rw [if_neg (by omega)]
  · simp only [Char.toLower]
    rw [if_neg (by omega)]
  · decide

theorem ch_alnum_not_space (c : Char) (h : isDashOrAlnum c = true) : isSpace c = false := by
  simp only [isDashOrAlnum, isLowerAlnum, isDash, Bool.or_eq_true, Bool.and_eq_true,
    decide_eq_true_eq] at h
  rcases h with (⟨h1, h2⟩ | ⟨h1, h2⟩) | rfl
  · cases hs : isSpace c
    · rfl
    · exfalso
      simp only [isSpace, Bool.or_eq_true, Bool.and_eq_true, decide_eq_true_eq] at hs
      omega
  · cases hs : isSpace c
    · rfl
    · exfalso
      simp only [isSpace, Bool.or_eq_true, Bool.and_eq_true, decide_eq_true_eq] at hs
      omega
  · decide

theorem ch_alnum_not_dash (c : Char) (h : isLowerAlnum c = true) : isDash c = false := by
  simp only [isLowerAlnum, Bool.or_eq_true, Bool.and_eq_true, decide_eq_true_eq] at h
  cases hd : isDash c
  · rfl
  · exfalso
    simp only [isDash, decide_eq_true_eq] at hd
    subst hd
    rcases h with ⟨h1, h2⟩ | ⟨h1, h2⟩
    · exact absurd h1 (by decide)
    · exact absurd h1 (by decide)

theorem ch_dashOrAlnum_resolve (c : Char) (h : isDashOrAlnum c = true)
    (hd : isDash c = false) : isLowerAlnum c = true := by
  simp only [isDashOrAlnum, Bool.or_eq_true] at h
  rcases h with h | h
  · exact h
  · rw [h] at hd
    cases hd

/-! ### Scanner invariants for `slug` -/

theorem dropTrailing_cons (p : Char → Bool) (c : Char) (t : Line) :
    dropTrailing p (c :: t) =
      match dropTrailing p t with
      | [] => if p c then [] else [c]
      | r => c :: r := rfl

theorem subAux_cons (c : Char) (cs : Line) (b : Bool) :
    subAux (c :: cs) b =
      if isLowerAlnum c then c :: subAux cs false
      else if b then subAux cs true else '-' :: subAux cs true := rfl

theorem sl_subAux_all : ∀ (l : Line) (b : Bool), (subAux l b).all isDashOrAlnum = true := by
  intro l
  induction l with
  | nil => intro b; rfl
  | cons c cs ih =>
    intro b
    cases hc : isLowerAlnum c with
    | true =>
      simp [subAux, hc, isDashOrAlnum, ih false]
    | false =>
      cases b with
      | true => simp [subAux, hc, ih true]
      | false => simp [subAux, hc, isDashOrAlnum, isDash, ih true]

theorem sl_subAux_true_head : ∀ l : Line, headSat isDash (subAux l true) = false := by
  intro l
  induction l with
  | nil => rfl
  | cons c cs ih =>
    cases hc : isLowerAlnum c with
    | true => simp [subAux, hc, headSat, ch_alnum_not_dash c hc]
    | false => simp [subAux, hc, ih]

theorem sl_noDD_cons (c : Char) (t : Line) (hc : isDash c = false) (ht : noDD t = true) :
    noDD (c :: t) = true := by
  cases t with
  | nil => rfl
  | cons x xs => simp [noDD, hc, ht]

theorem sl_noDD_cons_dash (t : Line) (ht : headSat isDash t = false) (h : noDD t = true) :
    noDD ('-' :: t) = true := by
  cases t with
  | nil => rfl
  | cons x xs =>
    simp only [headSat] at ht
    simp [noDD, ht, h]

theorem sl_noDD_tail (c : Char) (t : Line) (h : noDD (c :: t) = true) : noDD t = true := by
  cases t with
  | nil => rfl
  | cons x xs =>
    simp only [noDD, Bool.and_eq_true] at h
    exact h.2

theorem sl_subAux_noDD : ∀ (l : Line) (b : Bool), noDD (subAux l b) = true := by
  intro l
  induction l with
  | nil => intro b; rfl
  | cons c cs ih =>
    intro b
    cases hc : isLowerAlnum c with
    | true =>
      simp only [subAux, hc, if_true]
      exact sl_noDD_cons c _ (ch_alnum_not_dash c hc) (ih false)
    | false =>
      cases b with
      | true => simp only [subAux, hc]; exact ih true
      | false =>
        simp only [subAux, hc]
        exact sl_noDD_cons_dash _ (sl_subAux_true_head cs) (ih true)

theorem sl_all_dropWhile (p q : Char → Bool) (l : Line) (h : l.all q = true) :
    (l.dropWhile p).all q = true := by
  induction l with
  | nil => rfl
  | cons c cs ih =>
    simp only [List.all_cons, Bool.and_eq_true] at h
    cases hp : p c
    · simp [List.dropWhile_cons, hp, List.all_cons, h.1, h.2]
    · simp only [List.dropWhile_cons, hp, if_true]
      exact ih h.2

theorem sl_noDD_dropWhile (p : Char → Bool) (l : Line) (h : noDD l = true) :
    noDD (l.dropWhile p) = true := by
  induction l with
  | nil => rfl
  | cons c cs ih =>
    cases hp : p c
    · simpa [List.dropWhile_cons, hp] using h
    · simp only [List.dropWhile_cons, hp, if_true]
      exact ih (sl_noDD_tail c cs h)

theorem sl_head_dropWhile (p : Char → Bool) (l : Line) :
    headSat p (l.dropWhile p) = false := by
  induction l with
  | nil => rfl
  | cons c cs ih =>
    cases hp : p c
    · simp [List.dropWhile_cons, hp, headSat]
    · simp only [List.dropWhile_cons, hp, if_true]
      exact ih

theorem sl_dt_all (p q : Char → Bool) (l : Line) (h : l.all q = true) :
    (dropTrailing p l).all q = true := by
  induction l with
  | nil => rfl
  | cons c cs ih =>
    simp only [List.all_cons, Bool.and_eq_true] at h
    cases hr : dropTrailing p cs with
    | nil =>
      cases hp : p c
      · simp [dropTrailing, hr, hp, List.all_cons, h.1]
      · simp [dropTrailing, hr, hp]
    | cons x xs =>
      have hall := ih h.2
      rw [hr] at hall
      simp [dropTrailing, hr, List.all_cons, h.1, hall]

theorem sl_dt_noDD (p : Char → Bool) (l : Line) (h : noDD l = true) :
    noDD (dropTrailing p l) = true := by
  induction l with
  | nil => rfl
  | cons c cs ih =>
    cases hr : dropTrailing p cs with
    | nil =>
      cases hp : p c
      · simp [dropTrailing, hr, hp, noDD]
      · simp [dropTrailing, hr, hp, noDD]
    | cons x xs =>
      have htail := ih (sl_noDD_tail c cs h)
      rw [hr] at htail
      cases cs with
      | nil => simp [dropTrailing] at hr
      | cons c2 cs' =>
        have hx : x = c2 := by
          have hcons := hr
          rw [dropTrailing_cons] at hcons
          cases hr2 : dropTrailing p cs' with
          | nil =>
            rw [hr2] at hcons
            cases hp2 : p c2 <;> simp [hp2] at hcons
            exact hcons.1.symm
          | cons y ys =>
            rw [hr2] at hcons
            simp at hcons
            exact hcons.1.symm
        subst hx
        rw [dropTrailing_cons, hr]
        simp only [noDD, Bool.and_eq_true] at h ⊢
        exact ⟨h.1, htail⟩

theorem sl_dt_lastOk (p : Char → Bool) (l : Line) :
    lastSat p (dropTrailing p l) = false := by
  induction l with
  | nil => rfl
  | cons c cs ih =>
    cases hr : dropTrailing p cs with
    | nil =>
      cases hp : p c
      · simp [dropTrailing, hr, hp, lastSat]
      · simp [dropTrailing, hr, hp, lastSat]
    | cons x xs =>
      rw [hr] at ih
      simp only [dropTrailing, hr, lastSat]
      exact ih

theorem sl_dt_id (p : Char → Bool) (l : Line) (h : lastSat p l = false) :
    dropTrailing p l = l := by
  induction l with
  | nil => rfl
  | cons c cs ih =>
    cases cs with
    | nil =>
      simp only [lastSat] at h
      simp [dropTrailing, h]
    | cons c2 cs' =>
      have h' : lastSat p (c2 :: cs') = false := by simpa [lastSat] using h
      rw [dropTrailing_cons, ih h']

theorem sl_dw_id (p : Char → Bool) (l : Line) (h : headSat p l = false) :
    l.dropWhile p = l := by
  cases l with
  | nil => rfl
  | cons c cs =>
    simp only [headSat] at h
    simp [List.dropWhile_cons, h]

theorem sl_strip_head (p : Char → Bool) (l : Line) :
    headSat p (stripBoth p l) = false := by
  unfold stripBoth
  cases hdw : l.dropWhile p with
  | nil => simp [dropTrailing, headSat]
  | cons c cs =>
    have hc : p c = false := by
      have hh := sl_head_dropWhile p l
      rw [hdw] at hh
      simpa [headSat] using hh
    cases hr : dropTrailing p cs with
    | nil => simp [dropTrailing, hr, hc, headSat]
    | cons x xs => simp [dropTrailing, hr, headSat, hc]

theorem sl_strip_id (p : Char → Bool) (l : Line) (hh : headSat p l = false)
    (hl : lastSat p l = false) : stripBoth p l = l := by
  unfold stripBoth
  rw [sl_dw_id p l hh, sl_dt_id p l hl]

theorem sl_lastSat_mono (p q : Char → Bool) (l : Line) (h : l.all q = true)
    (himp : ∀ c, q c = true → p c = false) : lastSat p l = false := by
  induction l with
  | nil => rfl
  | cons c cs ih =>
    simp only [List.all_cons, Bool.and_eq_true] at h
    cases cs with
    | nil => simp [lastSat, himp c h.1]
    | cons c2 cs' =>
      simp only [lastSat]
      exact ih h.2

theorem sl_map_fix (f : Char → Char) (l : Line) (h : ∀ c ∈ l, f c = c) : l.map f = l := by
  induction l with
  | nil => rfl
  | cons c cs ih =>
    simp [h c (List.mem_cons_self c cs), ih (fun x hx => h x (List.mem_cons_of_mem c hx))]

theorem sl_subAux_fix : ∀ l : Line, l.all isDashOrAlnum = true → noDD l = true →
    lastSat isDash l = false →
    subAux l false = l ∧ (headSat isDash l = false → subAux l true = l) := by
  intro l
  induction l with
  | nil => intro _ _ _; exact ⟨rfl, fun _ => rfl⟩
  | cons c cs ih =>
    intro hall hnd hls
    simp only [List.all_cons, Bool.and_eq_true] at hall
    cases hc : isLowerAlnum c with
    | true =>
      have hls' : lastSat isDash cs = false := by
        cases cs with
        | nil => rfl
        | cons c2 cs' => simpa [lastSat] using hls
      have hfix := (ih hall.2 (sl_noDD_tail c cs hnd) hls').1
      exact ⟨by simp [subAux, hc, hfix], fun _ => by simp [subAux, hc, hfix]⟩
    | false =>
      have hcd : isDash c = true := by
        have hca := hall.1
        simp only [isDashOrAlnum, Bool.or_eq_true, hc] at hca
        simpa using hca
      have hc2 : c = '-' := by simpa [isDash, decide_eq_true_eq] using hcd
      subst hc2
      cases cs with
      | nil => simp [lastSat, isDash] at hls
      | cons c2 cs' =>
        have hhead : isDash c2 = false := by
          simp only [noDD, Bool.and_eq_true] at hnd
          have h1 := hnd.1
          simp only [isDash, Bool.not_eq_true', Bool.and_eq_false_iff] at h1 ⊢
          rcases h1 with h1 | h1
          · exact absurd h1 (by simp)
          · exact h1
        have hls' : lastSat isDash (c2 :: cs') = false := by simpa [lastSat] using hls
        have hfix := (ih hall.2 (sl_noDD_tail _ _ hnd) hls').2 (by simp [headSat, hhead])
        constructor
        · rw [subAux_cons]
          simp [hc, hfix]
        · intro hhd
          exfalso
          simp [headSat, isDash] at hhd

theorem sl_collapse_fix : ∀ l : Line, noDD l = true →
    collapseAux l false = l ∧ (headSat isDash l = false → collapseAux l true = l) := by
  intro l
  induction l with
  | nil => intro _; exact ⟨rfl, fun _ => rfl⟩
  | cons c cs ih =>
    intro hnd
    have ih' := ih (sl_noDD_tail c cs hnd)
    by_cases hc : c = '-'
    · subst hc
      have hhead : headSat isDash cs = false := by
        cases cs with
        | nil => rfl
        | cons c2 cs' =>
          simp only [noDD, Bool.and_eq_true] at hnd
          have h1 := hnd.1
          simp only [isDash, Bool.not_eq_true', Bool.and_eq_false_iff] at h1
          rcases h1 with h1 | h1
          · exact absurd h1 (by simp)
          · simp [headSat, isDash, h1]
      constructor
      · simp [collapseAux, ih'.2 hhead]
      · intro hhd
        exfalso
        simp [headSat, isDash] at hhd
    · exact ⟨by simp [collapseAux, hc, ih'.1], fun _ => by simp [collapseAux, hc, ih'.1]⟩

theorem sl_pattern_intro (l : Line) (hne : l ≠ [])
    (hall : l.all isDashOrAlnum = true) (hnd : noDD l = true)
    (hh : headSat isDash l = false) (hl : lastSat isDash l = false) :
    slugPattern l = true := by
  cases l with
  | nil => exact absurd rfl hne
  | cons c cs =>
    have hcd : isDash c = false := by simpa [headSat] using hh
    have hca : isLowerAlnum c = true := by
      have hall' := hall
      simp only [List.all_cons, Bool.and_eq_true] at hall'
      exact ch_dashOrAlnum_resolve c hall'.1 hcd
    simp [slugPattern, hca, hall, hnd, hl]

theorem sl_pattern_elim (l : Line) (h : slugPattern l = true) :
    l.all isDashOrAlnum = true ∧ noDD l = true ∧ headSat isDash l = false ∧
    lastSat isDash l = false := by
  cases l with
  | nil => simp [slugPattern] at h
  | cons c cs =>
    simp only [slugPattern, Bool.and_eq_true, Bool.not_eq_true'] at h
    obtain ⟨⟨⟨h1, h2⟩, h3⟩, h4⟩ := h
    exact ⟨h2, h3, by simp [headSat, ch_alnum_not_dash c h1], h4⟩

theorem sl_slug_shape (s : Line) : slug s = [] ∨ slugPattern (slug s) = true := by
  have key : ∀ m : Line, m.all isDashOrAlnum = true → noDD m = true →
      headSat isDash m = false → lastSat isDash m = false →
      collapseDashes m = [] ∨ slugPattern (collapseDashes m) = true := by
    intro m hall hnd hh hl
    cases m with
    | nil => exact Or.inl rfl
    | cons c cs =>
      right
      have hp : slugPattern (c :: cs) = true :=
        sl_pattern_intro _ (by simp) hall hnd hh hl
      have hcol : collapseDashes (c :: cs) = c :: cs := by
        unfold collapseDashes
        exact (sl_collapse_fix _ hnd).1
      rw [hcol]
      exact hp
  have hs : slug s =
      collapseDashes (stripBoth isDash (subAux (lower (stripBoth isSpace s)) false)) := rfl
  rw [hs]
  apply key
  · unfold stripBoth
    exact sl_dt_all _ _ _ (sl_all_dropWhile _ _ _ (sl_subAux_all _ _))
  · unfold stripBoth
    exact sl_dt_noDD _ _ (sl_noDD_dropWhile _ _ (sl_subAux_noDD _ _))
  · exact sl_strip_head _ _
  · unfold stripBoth
    exact sl_dt_lastOk _ _

theorem sl_slug_fix (m : Line) (h : slugPattern m = true) : slug m = m := by
  obtain ⟨hall, hnd, hh, hl⟩ := sl_pattern_elim m h
  have hmem : ∀ c ∈ m, isDashOrAlnum c = true := by
    intro c hc
    exact List.all_eq_true.mp hall c hc
  have h1 : stripBoth isSpace m = m := by
    apply sl_strip_id
    · cases m with
      | nil => rfl
      | cons c cs => simp [headSat, ch_alnum_not_space c (hmem c (List.mem_cons_self c cs))]
    · exact sl_lastSat_mono isSpace isDashOrAlnum m hall (fun c hc => ch_alnum_not_space c hc)
  have h2 : lower m = m := sl_map_fix _ _ (fun c hc => ch_alnum_toLower_fix c (hmem c hc))
  have h3 : subAux m false = m := (sl_subAux_fix m hall hnd hl).1
  have h4 : stripBoth isDash m = m := sl_strip_id isDash m hh hl
  have h5 : collapseAux m false = m := (sl_collapse_fix m hnd).1
  unfold slug subNonAlnum collapseDashes
  rw [h1, h2, h3, h4, h5]

/-- C4: for every input, `slug` returns the empty string or a string
matching `^[a-z0-9]+(-[a-z0-9]+)*$`, and `slug` is idempotent. -/
theorem c4_slug_shape_idempotent :
    ∀ s : Line, (slug s = [] ∨ slugPattern (slug s) = true) ∧ slug (slug s) = slug s := by
  intro s
  have h := sl_slug_shape s
  refine ⟨h, ?_⟩
  rcases h with h | h
  · rw [h]
    rfl
  · exact sl_slug_fix _ h

end Journey
